import Mathlib

/-!
Verification of the paper reference-graph / retrieval engine.

This file gives a shallow embedding, in Lean, of the core algorithms of the
repository (citation extraction, paper resolution, reference-graph building,
text chunking, chunk relevance scoring and ranking, network traversal, and the
query error-handling wrappers), together with theorems settling the behavioural
claims made about them.

Conventions used throughout:
* Python strings are modelled either as Lean `String` or as `List Char`
  (`List Char` where lemmas about `map`/`append` are needed); `str.lower()` is
  `Char.toLower` mapped over the characters, `a in b` (substring test) is an
  explicit prefix-scan `pyIn`, and `str.split()` with no argument is a
  whitespace splitter that drops empty pieces.
* Python machine integers are `Nat`/`Int` (all quantities here are
  non-negative counters, so `Nat` suffices); the only floating-point values
  that matter to any claim are exact decimal literals (0.8, 0.7, 0.3, 0.6,
  0.1), modelled as the corresponding rationals.
* Django ORM state is modelled explicitly: a paper table is a `List` of paper
  records (newest first, matching the `-uploaded_at` default ordering used
  with `.first()`), the `Reference` edge table is a `List (Nat × Nat)` of
  (source id, target id) pairs, and `get_or_create` on the edge table is an
  explicit membership test followed by an insert.
* External HTTP lookups (CrossRef / arXiv) are modelled by an oracle argument
  giving the (already JSON-projected) response items; everything the code does
  *with* a response — best-match selection, similarity scoring, thresholding,
  record creation — is translated from the source.
-/

/-! ### Python string primitives (`List Char` form) -/

/-- `str.lower()` on a Python string, modelled character-wise. -/
def lowerL (s : List Char) : List Char := s.map Char.toLower

/-- Python's substring test `needle in hay`: some suffix of `hay` starts with
`needle`. -/
def pyIn (needle hay : List Char) : Bool :=
  (List.range (hay.length + 1)).any fun i => needle.isPrefixOf (hay.drop i)

/-- Helper for `pySplitWs`: accumulates the current (reversed) word. -/
def pySplitWsAux : List Char → List Char → List (List Char)
  | [], cur => if cur.isEmpty then [] else [cur.reverse]
  | c :: rest, cur =>
    if c.isWhitespace then
      if cur.isEmpty then pySplitWsAux rest []
      else cur.reverse :: pySplitWsAux rest []
    else pySplitWsAux rest (c :: cur)

/-- Python's no-argument `str.split()`: split on runs of whitespace, dropping
empty pieces. -/
def pySplitWs (s : List Char) : List (List Char) := pySplitWsAux s []

/-- Character list of a string literal (convenience). -/
def strL (s : String) : List Char := s.toList

/-! ### Chunking engine (`RAGEngine._split_text`)

```python
def _split_text(self, text):
    chunks = []
    words = text.split()
    for i in range(0, len(words), self.chunk_size - self.chunk_overlap):
        chunk_words = words[i:i + self.chunk_size]
        chunk_text = " ".join(chunk_words)
        if chunk_text.strip():
            chunks.append(chunk_text)
    return chunks
```

`_split_text` is embedded at the word level: the input is the word list
produced by `text.split()` and each chunk is represented by its word list
(`" ".join` is injective on lists of non-empty whitespace-free words, which is
exactly what `split()` produces, and the `.strip()` test then keeps a chunk
iff its word list is non-empty). -/

/-- Python `range(start, stop, step)` for a positive `step`: the elements
`start + k*step` for `0 ≤ k < ⌈(stop - start)/step⌉`. -/
def pythonRange (start stop step : Nat) : List Nat :=
  (List.range ((stop - start + step - 1) / step)).map fun k => start + k * step

/-- `RAGEngine._split_text`, over the word list of the input text.  The engine
constructor fixes `chunk_size = 1000`, `chunk_overlap = 200`. -/
def splitText {α : Type} (chunkSize chunkOverlap : Nat) (words : List α) :
    List (List α) :=
  ((pythonRange 0 words.length (chunkSize - chunkOverlap)).map
      fun i => (words.drop i).take chunkSize).filter fun c => !c.isEmpty

theorem window_nonempty_of_lt {α : Type} (words : List α) (i sz : Nat)
    (hi : i < words.length) (hsz : 0 < sz) :
    ((words.drop i).take sz).isEmpty = false := by
  have hlen : ((words.drop i).take sz).length = min sz (words.length - i) := by
    simp [List.length_take, List.length_drop]
  have hpos : 0 < ((words.drop i).take sz).length := by
    rw [hlen]; omega
  cases h : ((words.drop i).take sz) with
  | nil => rw [h] at hpos; simp at hpos
  | cons a l => simp [h]

theorem mul_lt_of_lt_ceilDiv (k W : Nat) (h : k < (W + 799) / 800) :
    800 * k < W := by
  have h1 : (k + 1) * 800 ≤ ((W + 799) / 800) * 800 :=
    Nat.mul_le_mul_right 800 h
  have h2 : ((W + 799) / 800) * 800 ≤ W + 799 := Nat.div_mul_le_self _ _
  omega

/-- Closed form of the chunk list with the default 1000/200 configuration:
the `k`-th chunk is the window of (up to) 1000 words starting at word
`800 * k`, and there are `⌈W/800⌉` of them. -/
theorem splitText_closed_form {α : Type} (words : List α) :
    splitText 1000 200 words =
      (List.range ((words.length + 799) / 800)).map
        fun k => (words.drop (800 * k)).take 1000 := by
  have h1 : pythonRange 0 words.length (1000 - 200) =
      (List.range ((words.length + 799) / 800)).map fun k => 800 * k := by
    unfold pythonRange
    have e1 : words.length - 0 + (1000 - 200) - 1 = words.length + 799 := by omega
    rw [e1]
    norm_num [Nat.mul_comm]
  unfold splitText
  rw [h1, List.map_map]
  have e2 : ((fun i => (words.drop i).take 1000) ∘ fun k => 800 * k) =
      fun k => (words.drop (800 * k)).take 1000 := rfl
  rw [e2]
  apply List.filter_eq_self.2
  intro c hc
  rw [List.mem_map] at hc
  obtain ⟨k, hk, rfl⟩ := hc
  rw [List.mem_range] at hk
  have hk800 : 800 * k < words.length := mul_lt_of_lt_ceilDiv k words.length hk
  simp only [Function.comp_apply, Bool.not_eq_true']
  exact window_nonempty_of_lt words _ 1000 hk800 (by omega)

/-- C1, corrected: counterexample to the claim as stated.  For a text of
801 words the code produces 2 chunks (the second holding a single word),
while the claimed count `⌈(W − 200)/800⌉` is 1 (and the two chunks share
1 word, not 200). -/
theorem splitText_count_counterexample :
    (splitText 1000 200 (List.range 801)).length ≠ ((801 - 200) + 799) / 800 := by
  rw [splitText_closed_form]
  simp

/-- C1 (amended): for a text of `W > 200` words, chunking with
`chunk_size = 1000`, `chunk_overlap = 200` produces exactly `⌈W/800⌉` chunks
(not `⌈(W − 200)/800⌉`); each chunk holds at most 1000 words; and each pair of
consecutive chunks shares exactly `min 200 (W − 800·(i+1))` words — the
trailing 200 words of chunk `i` past its first 800 coincide with the leading
words of chunk `i+1`, and only pairs whose successor chunk has at least 200
words share the full 200. -/
theorem splitText_spec {α : Type} (words : List α) (h : 200 < words.length) :
    (splitText 1000 200 words).length = (words.length + 799) / 800 ∧
    (∀ c ∈ splitText 1000 200 words, c.length ≤ 1000) ∧
    (∀ i, i + 1 < (splitText 1000 200 words).length →
      ((splitText 1000 200 words).getD i []).drop 800 =
        ((splitText 1000 200 words).getD (i + 1) []).take 200 ∧
      (((splitText 1000 200 words).getD i []).drop 800).length =
        min 200 (words.length - 800 * (i + 1))) := by
  rw [splitText_closed_form]
  set n := (words.length + 799) / 800 with hn
  have hlen : ((List.range n).map fun k => (words.drop (800 * k)).take 1000).length = n := by
    simp
  refine ⟨hlen, ?_, ?_⟩
  · intro c hc
    rw [List.mem_map] at hc
    obtain ⟨k, _, rfl⟩ := hc
    simp [List.length_take]
  · intro i hi
    rw [hlen] at hi
    have hgetD : ∀ j, j < n →
        ((List.range n).map fun k => (words.drop (800 * k)).take 1000).getD j [] =
          (words.drop (800 * j)).take 1000 := by
      intro j hj
      rw [List.getD_eq_getElem _ _ (by simpa using hj)]
      simp
    rw [hgetD i (by omega), hgetD (i + 1) hi]
    have key : ((words.drop (800 * i)).take 1000).drop 800 =
        (words.drop (800 * (i + 1))).take 200 := by
      rw [List.drop_take, List.drop_drop]
      congr 1
    constructor
    · rw [key, List.take_take]
      norm_num
    · rw [key]
      simp [List.length_take, List.length_drop]

/-- Witness for `splitText_spec` at a concrete 1000-word text. -/
theorem splitText_spec_witness :
    200 < (List.range 1000).length ∧
    ((splitText 1000 200 (List.range 1000)).length = (1000 + 799) / 800 ∧
     (∀ c ∈ splitText 1000 200 (List.range 1000), c.length ≤ 1000) ∧
     (∀ i, i + 1 < (splitText 1000 200 (List.range 1000)).length →
       ((splitText 1000 200 (List.range 1000)).getD i []).drop 800 =
         ((splitText 1000 200 (List.range 1000)).getD (i + 1) []).take 200 ∧
       (((splitText 1000 200 (List.range 1000)).getD i []).drop 800).length =
         min 200 (1000 - 800 * (i + 1)))) := by
  refine ⟨by simp, ?_⟩
  have := splitText_spec (List.range 1000) (by simp)
  simpa using this

/-! ### Reference edge creation (`extract_references_from_paper`, main loop)

```python
ref_obj, created = Reference.objects.get_or_create(
    source_paper=paper, target_paper=referenced_paper,
    defaults={'reference_text': ref_data.get('text', '')})
if created:
    created_count += 1
```

`Reference.Meta` declares `unique_together = ['source_paper', 'target_paper']`;
`get_or_create` on the edge table is therefore a membership test on the
(source id, target id) pair followed by an insert when absent. -/

/-- `Reference.objects.get_or_create(source_paper=s, target_paper=t)` on the
edge table: returns the `created` flag and the updated table. -/
def getOrCreateEdge (s t : Nat) (edges : List (Nat × Nat)) :
    Bool × List (Nat × Nat) :=
  if (s, t) ∈ edges then (false, edges) else (true, edges ++ [(s, t)])

/-- The reference-creation loop of `extract_references_from_paper`, over the
list of resolved target-paper ids, threading the created-edge counter and the
edge table. -/
def createEdgesLoop (src : Nat) : List Nat → Nat × List (Nat × Nat) →
    Nat × List (Nat × Nat)
  | [], acc => acc
  | t :: ts, (cnt, edges) =>
    let r := getOrCreateEdge src t edges
    createEdgesLoop src ts (if r.1 then cnt + 1 else cnt, r.2)

theorem getOrCreateEdge_mem (s t : Nat) (edges : List (Nat × Nat)) :
    (s, t) ∈ (getOrCreateEdge s t edges).2 := by
  unfold getOrCreateEdge
  split
  · assumption
  · simp

theorem getOrCreateEdge_subset (s t : Nat) (edges : List (Nat × Nat)) :
    edges ⊆ (getOrCreateEdge s t edges).2 := by
  unfold getOrCreateEdge
  split
  · exact fun x hx => hx
  · intro x hx; simp [hx]

theorem getOrCreateEdge_nodup (s t : Nat) (edges : List (Nat × Nat))
    (h : edges.Nodup) : (getOrCreateEdge s t edges).2.Nodup := by
  unfold getOrCreateEdge
  split
  · exact h
  · simp only [List.nodup_append, List.nodup_cons, List.nodup_nil]
    exact ⟨h, ⟨by simp, trivial⟩, by simpa using fun hx => by simp_all⟩

theorem createEdgesLoop_subset (src : Nat) (ts : List Nat) :
    ∀ cnt edges, edges ⊆ (createEdgesLoop src ts (cnt, edges)).2 := by
  induction ts with
  | nil => intro cnt edges x hx; simpa [createEdgesLoop] using hx
  | cons t ts ih =>
    intro cnt edges x hx
    simp only [createEdgesLoop]
    exact ih _ _ (getOrCreateEdge_subset src t edges hx)

theorem createEdgesLoop_mem (src : Nat) (ts : List Nat) :
    ∀ cnt edges t, t ∈ ts → (src, t) ∈ (createEdgesLoop src ts (cnt, edges)).2 := by
  induction ts with
  | nil => intro cnt edges t ht; simp at ht
  | cons u ts ih =>
    intro cnt edges t ht
    simp only [createEdgesLoop]
    rcases List.mem_cons.1 ht with rfl | ht
    · exact createEdgesLoop_subset src ts _ _ (getOrCreateEdge_mem src t edges)
    · exact ih _ _ t ht

theorem createEdgesLoop_nodup (src : Nat) (ts : List Nat) :
    ∀ cnt edges, edges.Nodup → (createEdgesLoop src ts (cnt, edges)).2.Nodup := by
  induction ts with
  | nil => intro cnt edges h; simpa [createEdgesLoop] using h
  | cons t ts ih =>
    intro cnt edges h
    simp only [createEdgesLoop]
    exact ih _ _ (getOrCreateEdge_nodup src t edges h)

theorem createEdgesLoop_all_present (src : Nat) (ts : List Nat) :
    ∀ cnt edges, (∀ t ∈ ts, (src, t) ∈ edges) →
      createEdgesLoop src ts (cnt, edges) = (cnt, edges) := by
  induction ts with
  | nil => intro cnt edges _; rfl
  | cons t ts ih =>
    intro cnt edges h
    have hmem : (src, t) ∈ edges := h t (by simp)
    simp only [createEdgesLoop, getOrCreateEdge, if_pos hmem]
    exact ih cnt edges fun u hu => h u (by simp [hu])

/-- C2 (amended): the edge `get_or_create` under the `source+target`
uniqueness invariant never creates a duplicate (source, target) edge, and when
the second extraction run resolves each reference to the same target paper as
the first (which is the normal, non-external-lookup path — see the
counterexample for the external path), the second run creates 0 edges and
leaves the edge set unchanged. -/
theorem createEdgesLoop_idempotent (src : Nat) (ts : List Nat)
    (edges : List (Nat × Nat)) (h : edges.Nodup) :
    (createEdgesLoop src ts (0, edges)).2.Nodup ∧
    createEdgesLoop src ts (0, (createEdgesLoop src ts (0, edges)).2) =
      (0, (createEdgesLoop src ts (0, edges)).2) := by
  refine ⟨createEdgesLoop_nodup src ts 0 edges h, ?_⟩
  exact createEdgesLoop_all_present src ts 0 _
    (fun t ht => createEdgesLoop_mem src ts 0 edges t ht)

/-- Witness for `createEdgesLoop_idempotent` at a concrete run. -/
theorem createEdgesLoop_idempotent_witness :
    ([(7, 9)] : List (Nat × Nat)).Nodup ∧
    ((createEdgesLoop 7 [3, 4, 3] (0, [(7, 9)])).2.Nodup ∧
     createEdgesLoop 7 [3, 4, 3] (0, (createEdgesLoop 7 [3, 4, 3] (0, [(7, 9)])).2) =
       (0, (createEdgesLoop 7 [3, 4, 3] (0, [(7, 9)])).2)) :=
  ⟨by decide, createEdgesLoop_idempotent 7 [3, 4, 3] [(7, 9)] (by decide)⟩

/-! ### Network traversal (`RAGEngine._get_reference_network_papers`)

```python
network_papers = [start_paper]
visited = {start_paper.id}

def _add_papers_recursive(paper, depth):
    if depth >= max_depth:
        return
    for ref in paper.references.all():
        if ref.target_paper.id not in visited:
            network_papers.append(ref.target_paper)
            visited.add(ref.target_paper.id)
            _add_papers_recursive(ref.target_paper, depth + 1)
    for citation in paper.cited_by.all():
        if citation.source_paper.id not in visited:
            network_papers.append(citation.source_paper)
            visited.add(citation.source_paper.id)
            _add_papers_recursive(citation.source_paper, depth + 1)

_add_papers_recursive(start_paper, 0)
return network_papers
```

Papers are modelled by their ids; the edge table `refs` holds (source, target)
pairs.  The recursion depth guard `depth >= max_depth` is modelled by the
remaining-depth fuel `max_depth - depth`, which strictly decreases at each
recursive call — so the embedding is a total function for every graph,
including cyclic ones such as the 2-cycle A→B→A. -/

/-- Outgoing reference targets of `p` (`paper.references.all()`). -/
def refTargets (refs : List (Nat × Nat)) (p : Nat) : List Nat :=
  (refs.filter fun e => e.1 == p).map fun e => e.2

/-- Incoming citation sources of `p` (`paper.cited_by.all()`). -/
def citationSources (refs : List (Nat × Nat)) (p : Nat) : List Nat :=
  (refs.filter fun e => e.2 == p).map fun e => e.1

/-- `_add_papers_recursive`: the state is the pair
(network_papers, visited); the first `Nat` argument is the remaining depth
`max_depth - depth`. -/
def addPapersRec (refs : List (Nat × Nat)) :
    Nat → Nat → List Nat × List Nat → List Nat × List Nat
  | 0, _, st => st
  | fuel + 1, p, st =>
    let st1 := (refTargets refs p).foldl
      (fun st t => if t ∈ st.2 then st
        else addPapersRec refs fuel t (st.1 ++ [t], st.2 ++ [t])) st
    (citationSources refs p).foldl
      (fun st t => if t ∈ st.2 then st
        else addPapersRec refs fuel t (st.1 ++ [t], st.2 ++ [t])) st1

/-- `_get_reference_network_papers(start, max_depth)`: visited set and paper
list both seeded with the start paper. -/
def getReferenceNetworkPapers (refs : List (Nat × Nat)) (start maxDepth : Nat) :
    List Nat :=
  (addPapersRec refs maxDepth start ([start], [start])).1

theorem foldl_preserves {σ α : Type} (P : σ → Prop) (f : σ → α → σ)
    (hf : ∀ st a, P st → P (f st a)) :
    ∀ (l : List α) (st : σ), P st → P (l.foldl f st) := by
  intro l
  induction l with
  | nil => intro st h; exact h
  | cons a l ih => intro st h; exact ih (f st a) (hf st a h)

/-- Invariant of the traversal state: paper list and visited set coincide and
contain no duplicates. -/
def NetInv (st : List Nat × List Nat) : Prop := st.1 = st.2 ∧ st.2.Nodup

theorem addPapersRec_inv (refs : List (Nat × Nat)) :
    ∀ fuel p st, NetInv st → NetInv (addPapersRec refs fuel p st) := by
  intro fuel
  induction fuel with
  | zero => intro p st h; exact h
  | succ n ih =>
    intro p st h
    simp only [addPapersRec]
    have hstep : ∀ (st : List Nat × List Nat) (t : Nat), NetInv st →
        NetInv (if t ∈ st.2 then st
          else addPapersRec refs n t (st.1 ++ [t], st.2 ++ [t])) := by
      intro st t hst
      split
      · exact hst
      · refine ih t _ ⟨by rw [hst.1], ?_⟩
        simp only [List.nodup_append, List.nodup_cons, List.nodup_nil]
        refine ⟨hst.2, ⟨by simp, trivial⟩, ?_⟩
        intro x hx
        simp only [List.mem_singleton]
        intro hxt
        subst hxt
        simp_all
    exact foldl_preserves NetInv _ hstep _ _
      (foldl_preserves NetInv _ hstep _ _ h)

theorem addPapersRec_grows (refs : List (Nat × Nat)) :
    ∀ fuel p st x, x ∈ st.1 → x ∈ (addPapersRec refs fuel p st).1 := by
  intro fuel
  induction fuel with
  | zero => intro p st x hx; exact hx
  | succ n ih =>
    intro p st x hx
    simp only [addPapersRec]
    have hstep : ∀ (st : List Nat × List Nat) (t : Nat), x ∈ st.1 →
        x ∈ (if t ∈ st.2 then st
          else addPapersRec refs n t (st.1 ++ [t], st.2 ++ [t])).1 := by
      intro st t hst
      split
      · exact hst
      · exact ih t _ x (by simp [hst])
    exact foldl_preserves (fun st : List Nat × List Nat => x ∈ st.1) _ hstep _ _
      (foldl_preserves (fun st : List Nat × List Nat => x ∈ st.1) _ hstep _ _ hx)

/-- C3: for every reference/citation graph (cyclic graphs included — the
embedding is total by the strictly decreasing remaining-depth argument, which
mirrors the `depth >= max_depth` guard) and every `max_depth ≥ 0`, the network
traversal returns a paper list without duplicates — each paper appears at most
once — and the start paper (seeding the visited set) is in the list. -/
theorem getReferenceNetworkPapers_nodup (refs : List (Nat × Nat))
    (start maxDepth : Nat) :
    (getReferenceNetworkPapers refs start maxDepth).Nodup ∧
    start ∈ getReferenceNetworkPapers refs start maxDepth := by
  have hinv := addPapersRec_inv refs maxDepth start ([start], [start])
    ⟨rfl, by simp⟩
  constructor
  · rw [getReferenceNetworkPapers, hinv.1]
    exact hinv.2
  · exact addPapersRec_grows refs maxDepth start ([start], [start]) start (by simp)

/-! ### Relevance scorer and chunk ranking
(`RAGEngine._get_relevant_chunks_simple`, `_extract_key_concepts`,
`_score_question_specific_content`, `_fallback_search`)

```python
question_lower = question.lower()
key_concepts = self._extract_key_concepts(question_lower)
question_words = [w for w in question_lower.split() if len(w) > 2]
chunk_scores = []
for chunk in chunks:
    chunk_lower = chunk.content.lower()
    score = 0
    for concept in key_concepts:
        if concept in chunk_lower: score += 5
    for word in question_words:
        if word in chunk_lower: score += 1
    if len(question_words) > 1:
        for i in range(len(question_words) - 1):
            phrase = f"{question_words[i]} {question_words[i+1]}"
            if phrase in chunk_lower: score += 3
    score += self._score_question_specific_content(question_lower, chunk_lower)
    if score > 0:
        chunk_scores.append((chunk, score))
chunk_scores.sort(key=lambda x: x[1], reverse=True)
relevant_chunks = [chunk for chunk, score in chunk_scores[:self.top_k]]
if not relevant_chunks:
    return self._fallback_search(question_lower, chunks)
return relevant_chunks
```

The engine constructor fixes `top_k = 5`; `_fallback_search` returns
`list(chunks[:3])`.  The paper's chunks arrive ordered by ascending
`chunk_index` (the `PaperChunk.Meta` ordering), so the input list order *is*
the original chunk-index order. -/

/-- A stored `PaperChunk` (id, `chunk_index`, content). -/
structure PChunk where
  id : Nat
  chunkIndex : Nat
  content : List Char
deriving DecidableEq

/-- `RAGEngine._extract_key_concepts` (question already lowercased).  The
source builds the concept list cluster by cluster and finishes with
`list(set(concepts))`; the five clusters are pairwise disjoint, so the final
set-dedup is the identity on the accumulated list (up to the arbitrary Python
set order, and every consumer of the list is order-invariant), and is
therefore omitted. -/
def extractKeyConcepts (q : List Char) : List (List Char) :=
  (if [strL "mobile", strL "device", strL "smartphone", strL "tablet",
        strL "phone"].any (fun w => pyIn w q) then
    [strL "mobile", strL "device", strL "smartphone", strL "tablet"] else []) ++
  (if [strL "learn", strL "study", strL "education",
        strL "teaching"].any (fun w => pyIn w q) then
    [strL "learn", strL "study", strL "education", strL "teaching"] else []) ++
  (if [strL "language", strL "english", strL "vocabulary",
        strL "grammar"].any (fun w => pyIn w q) then
    [strL "language", strL "english", strL "vocabulary", strL "grammar"] else []) ++
  (if [strL "reason", strL "why", strL "purpose", strL "benefit",
        strL "advantage"].any (fun w => pyIn w q) then
    [strL "reason", strL "why", strL "purpose", strL "benefit",
     strL "advantage"] else []) ++
  (if [strL "how", strL "method", strL "process",
        strL "way"].any (fun w => pyIn w q) then
    [strL "how", strL "method", strL "process", strL "way"] else [])

/-- `[word for word in question_lower.split() if len(word) > 2]`. -/
def questionWords (ql : List Char) : List (List Char) :=
  (pySplitWs ql).filter fun w => decide (2 < w.length)

def explanatoryWords : List (List Char) :=
  [strL "because", strL "since", strL "as", strL "due to", strL "reason",
   strL "purpose", strL "benefit"]

def proceduralWords : List (List Char) :=
  [strL "process", strL "method", strL "step", strL "procedure", strL "way",
   strL "approach"]

def definitionalWords : List (List Char) :=
  [strL "is", strL "are", strL "means", strL "refers to", strL "defined as",
   strL "consists of"]

/-- `RAGEngine._score_question_specific_content` (both arguments already
lowercased, as at the call site). -/
def scoreQuestionSpecificContent (q c : List Char) : Nat :=
  if pyIn (strL "why") q || pyIn (strL "reason") q then
    2 * explanatoryWords.countP (fun w => pyIn w c)
  else if pyIn (strL "how") q then
    2 * proceduralWords.countP (fun w => pyIn w c)
  else if pyIn (strL "what") q then
    2 * definitionalWords.countP (fun w => pyIn w c)
  else 0

/-- The per-chunk score accumulated by the loop body of
`_get_relevant_chunks_simple`: +5 per key concept found in the chunk, +1 per
(length > 2) question word found, +3 per adjacent question-word bigram found,
plus the question-type bonus.  `ql` is the lowercased question, `cl` the
lowercased chunk content. -/
def relevantScore (ql cl : List Char) : Nat :=
  5 * (extractKeyConcepts ql).countP (fun k => pyIn k cl)
    + (questionWords ql).countP (fun w => pyIn w cl)
    + (if 1 < (questionWords ql).length then
        3 * ((questionWords ql).zip (questionWords ql).tail).countP
          (fun pr => pyIn (pr.1 ++ ' ' :: pr.2) cl)
      else 0)
    + scoreQuestionSpecificContent ql cl

/-- One step of the stable descending sort: insert `x` before the first
element with a key less than or equal to `x`'s (so `x`, which originates
earlier in the input, stays in front of equal keys). -/
def insertTop {β : Type} (x : β × Nat) : List (β × Nat) → List (β × Nat)
  | [] => [x]
  | y :: ys => if y.2 ≤ x.2 then x :: y :: ys else y :: insertTop x ys

/-- Stable sort by descending key: extensionally equal to Python's
`list.sort(key=..., reverse=True)` (a stable sort's output is uniquely
determined by the key order, see `sortDesc_sorted` and
`sortDesc_filter_stable`). -/
def sortDesc {β : Type} : List (β × Nat) → List (β × Nat)
  | [] => []
  | x :: xs => insertTop x (sortDesc xs)

/-- `RAGEngine._get_relevant_chunks_simple` (with the constructor defaults
`top_k = 5` and the first-3-chunks `_fallback_search`). -/
def getRelevantChunksSimple (question : List Char) (chunks : List PChunk) :
    List PChunk :=
  if chunks.isEmpty then []
  else
    let ql := lowerL question
    let scored := chunks.map fun c => (c, relevantScore ql (lowerL c.content))
    let chunkScores := scored.filter fun p => decide (0 < p.2)
    let relevantChunks := ((sortDesc chunkScores).take 5).map fun p => p.1
    if relevantChunks.isEmpty then chunks.take 3 else relevantChunks

theorem isPrefixOf_append_right {α : Type} [BEq α] (n : List α) :
    ∀ h t : List α, n.isPrefixOf h = true → n.isPrefixOf (h ++ t) = true := by
  induction n with
  | nil => intro h t _; simp
  | cons a as ih =>
    intro h t hp
    cases h with
    | nil => simp [List.isPrefixOf] at hp
    | cons b bs =>
      simp only [List.cons_append, List.isPrefixOf_cons₂, Bool.and_eq_true] at hp ⊢
      exact ⟨hp.1, ih bs t hp.2⟩

/-- Substring presence is monotone under extending the haystack on the
right. -/
theorem pyIn_append_right (n h t : List Char) (hp : pyIn n h = true) :
    pyIn n (h ++ t) = true := by
  unfold pyIn at hp ⊢
  rw [List.any_eq_true] at hp ⊢
  obtain ⟨i, hi, hpre⟩ := hp
  rw [List.mem_range] at hi
  refine ⟨i, ?_, ?_⟩
  · rw [List.mem_range, List.length_append]
    omega
  · have hdrop : (h ++ t).drop i = h.drop i ++ t :=
      List.drop_append_of_le_length (by omega)
    rw [hdrop]
    exact isPrefixOf_append_right n (h.drop i) t hpre

theorem countP_mono_of_imp {α : Type} (p q : α → Bool) :
    ∀ l : List α, (∀ a ∈ l, p a = true → q a = true) →
      l.countP p ≤ l.countP q := by
  intro l
  induction l with
  | nil => intro _; simp
  | cons a l ih =>
    intro h
    have ih2 := ih fun a ha => h a (by simp [ha])
    have ha := h a (by simp)
    rw [List.countP_cons, List.countP_cons]
    cases hp : p a with
    | false =>
      have : (if false = true then 1 else 0) = 0 := rfl
      rw [this]
      omega
    | true => rw [ha hp]; omega

/-- Core monotonicity of the single-paper scorer: extending the (lowercased)
chunk content on the right never decreases any of the four score
contributions, since each is a sum of substring-presence indicators. -/
theorem relevantScore_mono (ql cl ext : List Char) :
    relevantScore ql cl ≤ relevantScore ql (cl ++ ext) := by
  unfold relevantScore scoreQuestionSpecificContent
  have hconcepts := countP_mono_of_imp (fun k => pyIn k cl)
    (fun k => pyIn k (cl ++ ext)) (extractKeyConcepts ql)
    (fun a _ hp => pyIn_append_right a cl ext hp)
  have hwords := countP_mono_of_imp (fun w => pyIn w cl)
    (fun w => pyIn w (cl ++ ext)) (questionWords ql)
    (fun a _ hp => pyIn_append_right a cl ext hp)
  have hphrase := countP_mono_of_imp
    (fun pr : List Char × List Char => pyIn (pr.1 ++ ' ' :: pr.2) cl)
    (fun pr => pyIn (pr.1 ++ ' ' :: pr.2) (cl ++ ext))
    ((questionWords ql).zip (questionWords ql).tail)
    (fun a _ hp => pyIn_append_right _ cl ext hp)
  have hexp := countP_mono_of_imp (fun w => pyIn w cl)
    (fun w => pyIn w (cl ++ ext)) explanatoryWords
    (fun a _ hp => pyIn_append_right a cl ext hp)
  have hproc := countP_mono_of_imp (fun w => pyIn w cl)
    (fun w => pyIn w (cl ++ ext)) proceduralWords
    (fun a _ hp => pyIn_append_right a cl ext hp)
  have hdefn := countP_mono_of_imp (fun w => pyIn w cl)
    (fun w => pyIn w (cl ++ ext)) definitionalWords
    (fun a _ hp => pyIn_append_right a cl ext hp)
  split_ifs <;> omega

/-- C5: for every question and chunk, extending the chunk's content with an
occurrence of an exact question keyword (`w` a word of the lowercased
question of length > 2, preceded by arbitrary separator text `sep`) never
decreases the chunk's single-paper relevance score: every contribution
(concept, word, phrase, question-type) is a non-negative count of
substring-presence tests, each monotone under content extension. -/
theorem relevantScore_keyword_mono (question content sep w : List Char)
    (hw : w ∈ questionWords (lowerL question)) :
    relevantScore (lowerL question) (lowerL content) ≤
      relevantScore (lowerL question) (lowerL (content ++ sep ++ w)) := by
  have hdist : lowerL (content ++ sep ++ w) =
      lowerL content ++ (lowerL sep ++ lowerL w) := by
    simp [lowerL]
  rw [hdist]
  exact relevantScore_mono (lowerL question) (lowerL content)
    (lowerL sep ++ lowerL w)

/-- Witness for `relevantScore_keyword_mono` on a concrete question, keyword
and chunk. -/
theorem relevantScore_keyword_mono_witness :
    strL "students" ∈ questionWords (lowerL (strL "why do Students learn")) ∧
    relevantScore (lowerL (strL "why do Students learn"))
        (lowerL (strL "some text")) ≤
      relevantScore (lowerL (strL "why do Students learn"))
        (lowerL (strL "some text" ++ strL " " ++ strL "students")) :=
  ⟨by decide, relevantScore_keyword_mono (strL "why do Students learn")
    (strL "some text") (strL " ") (strL "students") (by decide)⟩

theorem insertTop_perm {β : Type} (x : β × Nat) :
    ∀ l : List (β × Nat), (insertTop x l).Perm (x :: l) := by
  intro l
  induction l with
  | nil => simp [insertTop]
  | cons y ys ih =>
    unfold insertTop
    split
    · exact List.Perm.refl _
    · exact (List.Perm.cons y ih).trans (List.Perm.swap x y ys)

theorem sortDesc_perm {β : Type} :
    ∀ l : List (β × Nat), (sortDesc l).Perm l := by
  intro l
  induction l with
  | nil => simp [sortDesc]
  | cons x xs ih =>
    exact (insertTop_perm x (sortDesc xs)).trans (List.Perm.cons x ih)

theorem insertTop_pairwise {β : Type} (x : β × Nat) :
    ∀ l : List (β × Nat),
      l.Pairwise (fun a b => b.2 ≤ a.2) →
      (insertTop x l).Pairwise (fun a b => b.2 ≤ a.2) := by
  intro l
  induction l with
  | nil => intro _; simp [insertTop]
  | cons y ys ih =>
    intro h
    rw [List.pairwise_cons] at h
    unfold insertTop
    split
    · rename_i hyx
      rw [List.pairwise_cons]
      refine ⟨?_, List.pairwise_cons.2 h⟩
      intro z hz
      rcases List.mem_cons.1 hz with rfl | hz
      · exact hyx
      · exact le_trans (h.1 z hz) hyx
    · rename_i hyx
      rw [List.pairwise_cons]
      refine ⟨?_, ih h.2⟩
      intro z hz
      have hz2 := (insertTop_perm x ys).mem_iff.1 hz
      rcases List.mem_cons.1 hz2 with rfl | hz2
      · omega
      · exact h.1 z hz2

theorem sortDesc_pairwise {β : Type} :
    ∀ l : List (β × Nat), (sortDesc l).Pairwise (fun a b => b.2 ≤ a.2) := by
  intro l
  induction l with
  | nil => simp [sortDesc]
  | cons x xs ih => exact insertTop_pairwise x (sortDesc xs) ih

theorem filter_insertTop {β : Type} (s : Nat) (x : β × Nat) :
    ∀ l : List (β × Nat),
      (insertTop x l).filter (fun p => decide (p.2 = s)) =
        if x.2 = s then x :: l.filter (fun p => decide (p.2 = s))
        else l.filter (fun p => decide (p.2 = s)) := by
  intro l
  induction l with
  | nil =>
    simp only [insertTop, List.filter_cons, List.filter_nil]
    split_ifs with h1 h2 h2 <;> simp_all
  | cons y ys ih =>
    unfold insertTop
    split
    · rename_i hyx
      simp only [List.filter_cons]
      split_ifs <;> simp_all
    · rename_i hyx
      simp only [List.filter_cons, ih]
      split_ifs <;> simp_all <;> omega

/-- Stability of the descending sort: elements with any given key keep their
original relative order (the sort commutes with filtering on an exact key). -/
theorem sortDesc_filter_stable {β : Type} (s : Nat) :
    ∀ l : List (β × Nat),
      (sortDesc l).filter (fun p => decide (p.2 = s)) =
        l.filter (fun p => decide (p.2 = s)) := by
  intro l
  induction l with
  | nil => rfl
  | cons x xs ih =>
    show (insertTop x (sortDesc xs)).filter _ = _
    rw [filter_insertTop, List.filter_cons]
    split_ifs <;> simp_all

theorem scored_snd (question : List Char) (chunks : List PChunk)
    (p : PChunk × Nat)
    (hp : p ∈ chunks.map fun c =>
      (c, relevantScore (lowerL question) (lowerL c.content))) :
    p.2 = relevantScore (lowerL question) (lowerL p.1.content) := by
  rw [List.mem_map] at hp
  obtain ⟨c, _, rfl⟩ := hp
  rfl

theorem relevantChunks_empty_iff (question : List Char) (chunks : List PChunk) :
    ((sortDesc ((chunks.map fun c =>
        (c, relevantScore (lowerL question) (lowerL c.content))).filter
          fun p => decide (0 < p.2))).take 5).map (fun p => p.1) = [] ↔
      ((chunks.map fun c =>
        (c, relevantScore (lowerL question) (lowerL c.content))).filter
          fun p => decide (0 < p.2)) = [] := by
  rw [List.map_eq_nil_iff, List.take_eq_nil_iff]
  constructor
  · rintro (h5 | hnil)
    · omega
    · have hperm := sortDesc_perm ((chunks.map fun c =>
        (c, relevantScore (lowerL question) (lowerL c.content))).filter
          fun p => decide (0 < p.2))
      rw [hnil] at hperm
      exact hperm.symm.eq_nil
  · intro hnil
    right
    rw [hnil]
    rfl

/-- C4: for every question and every paper with at least one chunk,
single-paper retrieval returns a non-empty list; chunks scoring 0 are
excluded from ranking (every returned chunk scores > 0 whenever any chunk
does), and when no chunk scores above 0 the result is exactly the first 3
chunks, unscored. -/
theorem getRelevantChunksSimple_nonempty (question : List Char)
    (chunks : List PChunk) (h : chunks ≠ []) :
    getRelevantChunksSimple question chunks ≠ [] ∧
    ((∀ c ∈ chunks, relevantScore (lowerL question) (lowerL c.content) = 0) →
      getRelevantChunksSimple question chunks = chunks.take 3) ∧
    ((∃ c ∈ chunks, 0 < relevantScore (lowerL question) (lowerL c.content)) →
      ∀ c ∈ getRelevantChunksSimple question chunks,
        0 < relevantScore (lowerL question) (lowerL c.content)) := by
  have hne : chunks.isEmpty = false := by
    cases chunks with
    | nil => exact absurd rfl h
    | cons a l => rfl
  unfold getRelevantChunksSimple
  rw [hne]
  simp only [Bool.false_eq_true, if_false]
  set ql := lowerL question with hql
  set scored := chunks.map fun c => (c, relevantScore ql (lowerL c.content))
    with hscored
  set pos := scored.filter (fun p => decide (0 < p.2)) with hpos
  set top := ((sortDesc pos).take 5).map (fun p => p.1) with htop
  have hiff : top = [] ↔ pos = [] := relevantChunks_empty_iff question chunks
  refine ⟨?_, ?_, ?_⟩
  · split
    · rename_i htopE
      intro hcon
      rcases List.take_eq_nil_iff.1 hcon with h3 | hnil
      · omega
      · exact h hnil
    · rename_i htopE
      intro hcon
      rw [List.isEmpty_iff] at htopE
      exact htopE hcon
  · intro hall
    have hposE : pos = [] := by
      rw [hpos, List.filter_eq_nil_iff]
      intro p hp
      have hthis := scored_snd question chunks p hp
      rw [← hql] at hthis
      have hz := hall p.1 (by
        rw [hscored, List.mem_map] at hp
        obtain ⟨c, hc, rfl⟩ := hp
        exact hc)
      simp only [decide_eq_true_eq]
      omega
    have htopE : top = [] := hiff.2 hposE
    rw [if_pos (by rw [htopE]; rfl)]
  · intro hex
    obtain ⟨c, hc, hcpos⟩ := hex
    have hmem : (c, relevantScore ql (lowerL c.content)) ∈ pos := by
      rw [hpos, List.mem_filter]
      exact ⟨List.mem_map.2 ⟨c, hc, rfl⟩, by simpa using hcpos⟩
    have hposNE : pos ≠ [] := fun hcon => by rw [hcon] at hmem; exact absurd hmem (by simp)
    have htopNE : top ≠ [] := fun hcon => hposNE (hiff.1 hcon)
    rw [if_neg (by rw [List.isEmpty_iff]; exact htopNE)]
    intro d hd
    rw [htop, List.mem_map] at hd
    obtain ⟨p, hp, rfl⟩ := hd
    have hp2 : p ∈ pos :=
      (sortDesc_perm pos).mem_iff.1 (List.take_sublist 5 _ |>.mem hp)
    rw [hpos, List.mem_filter] at hp2
    have hsnd := scored_snd question chunks p hp2.1
    rw [← hql] at hsnd
    have := hp2.2
    simp only [decide_eq_true_eq] at this
    omega

/-- Witness for `getRelevantChunksSimple_nonempty` on a concrete paper. -/
theorem getRelevantChunksSimple_nonempty_witness :
    ([⟨1, 0, strL "we study learning"⟩] : List PChunk) ≠ [] ∧
    (getRelevantChunksSimple (strL "study") [⟨1, 0, strL "we study learning"⟩] ≠ [] ∧
     ((∀ c ∈ ([⟨1, 0, strL "we study learning"⟩] : List PChunk),
        relevantScore (lowerL (strL "study")) (lowerL c.content) = 0) →
       getRelevantChunksSimple (strL "study") [⟨1, 0, strL "we study learning"⟩] =
         ([⟨1, 0, strL "we study learning"⟩] : List PChunk).take 3) ∧
     ((∃ c ∈ ([⟨1, 0, strL "we study learning"⟩] : List PChunk),
        0 < relevantScore (lowerL (strL "study")) (lowerL c.content)) →
       ∀ c ∈ getRelevantChunksSimple (strL "study") [⟨1, 0, strL "we study learning"⟩],
         0 < relevantScore (lowerL (strL "study")) (lowerL c.content))) :=
  ⟨by decide, getRelevantChunksSimple_nonempty (strL "study")
    [⟨1, 0, strL "we study learning"⟩] (by decide)⟩

/-- C8: single-paper ranking keeps at most `top_k = 5` chunks, sorted by
non-increasing relevance score, and the tie-break is stable: for every score
value, the returned chunks with that score form a subsequence of the input
chunk list (which arrives in ascending `chunk_index` order), i.e. equal-score
chunks keep their original chunk-index order. -/
theorem getRelevantChunksSimple_ranking (question : List Char)
    (chunks : List PChunk) :
    (getRelevantChunksSimple question chunks).length ≤ 5 ∧
    (getRelevantChunksSimple question chunks).Pairwise
      (fun a b => relevantScore (lowerL question) (lowerL b.content) ≤
        relevantScore (lowerL question) (lowerL a.content)) ∧
    ∀ s : Nat, ((getRelevantChunksSimple question chunks).filter
      fun c => decide (relevantScore (lowerL question) (lowerL c.content) = s)).Sublist
        chunks := by
  by_cases hE : chunks.isEmpty
  · have hres : getRelevantChunksSimple question chunks = [] := by
      unfold getRelevantChunksSimple
      rw [if_pos hE]
    rw [hres]
    refine ⟨by simp, by simp, fun s => by simp⟩
  · have hEf : chunks.isEmpty = false := by
      cases hcE : chunks.isEmpty
      · rfl
      · exact absurd hcE hE
    unfold getRelevantChunksSimple
    rw [hEf]
    simp only [Bool.false_eq_true, if_false]
    set scored := chunks.map fun c =>
      (c, relevantScore (lowerL question) (lowerL c.content)) with hscored
    set pos := scored.filter (fun p => decide (0 < p.2)) with hpos
    set top := ((sortDesc pos).take 5).map (fun p => p.1) with htop
    have hmapfst : scored.map (fun p => p.1) = chunks := by
      rw [hscored, List.map_map]
      have hcomp : ((fun p : PChunk × Nat => p.1) ∘ fun c =>
          (c, relevantScore (lowerL question) (lowerL c.content))) =
            fun c => c := rfl
      rw [hcomp, List.map_id']
    have hmemsnd : ∀ p ∈ (sortDesc pos).take 5,
        p.2 = relevantScore (lowerL question) (lowerL p.1.content) := by
      intro p hp
      have hp2 : p ∈ pos :=
        (sortDesc_perm pos).mem_iff.1 (List.take_sublist 5 _ |>.mem hp)
      rw [hpos, List.mem_filter] at hp2
      exact scored_snd question chunks p hp2.1
    split
    · rename_i htopE
      have hup := List.length_take_le 3 chunks
      refine ⟨by omega, ?_, ?_⟩
      · have hposE : pos = [] := by
          have htopnil : top = [] := List.isEmpty_iff.1 htopE
          exact (relevantChunks_empty_iff question chunks).1 htopnil
        have hall : ∀ c ∈ chunks,
            relevantScore (lowerL question) (lowerL c.content) = 0 := by
          intro c hc
          have hmem : (c, relevantScore (lowerL question) (lowerL c.content)) ∈
              scored := List.mem_map.2 ⟨c, hc, rfl⟩
          have := List.filter_eq_nil_iff.1 (hpos ▸ hposE) _ hmem
          simp only [decide_eq_true_eq] at this
          omega
        apply List.pairwise_of_forall_mem_list
        intro a ha b hb
        have h3 : ∀ x ∈ chunks.take 3, x ∈ chunks :=
          fun x hx => (List.take_sublist 3 chunks).mem hx
        rw [hall a (h3 a ha), hall b (h3 b hb)]
      · intro s
        exact ((List.take_sublist 3 chunks).filter _).trans
          (List.filter_sublist chunks)
    · rename_i htopE
      refine ⟨?_, ?_, ?_⟩
      · rw [htop, List.length_map]
        have := List.length_take_le 5 (sortDesc pos)
        omega
      · rw [htop, List.pairwise_map]
        have hsorted : ((sortDesc pos).take 5).Pairwise
            (fun a b : PChunk × Nat => b.2 ≤ a.2) :=
          (sortDesc_pairwise pos).sublist (List.take_sublist 5 _)
        exact hsorted.imp_of_mem fun {a b} ha hb hab => by
          rw [← hmemsnd a ha, ← hmemsnd b hb]
          exact hab
      · intro s
        rw [htop, List.filter_map]
        have hcongr : ((sortDesc pos).take 5).filter
            ((fun c => decide (relevantScore (lowerL question)
              (lowerL c.content) = s)) ∘ fun p => p.1) =
            ((sortDesc pos).take 5).filter fun p => decide (p.2 = s) := by
          apply List.filter_congr
          intro p hp
          simp only [Function.comp_apply, decide_eq_decide]
          rw [hmemsnd p hp]
        rw [hcongr]
        have hsub1 : (((sortDesc pos).take 5).filter
            fun p : PChunk × Nat => decide (p.2 = s)).Sublist
              ((sortDesc pos).filter fun p => decide (p.2 = s)) :=
          (List.take_sublist 5 _).filter _
        rw [sortDesc_filter_stable s pos] at hsub1
        have hsub2 : (((sortDesc pos).take 5).filter
            fun p : PChunk × Nat => decide (p.2 = s)).Sublist scored :=
          hsub1.trans ((List.filter_sublist pos).trans
            (hpos ▸ List.filter_sublist scored))
        have := hsub2.map (fun p : PChunk × Nat => p.1)
        rw [hmapfst] at this
        exact this

/-! ### Citation parser (`papers.utils._extract_references_from_text`)

```python
for pattern in patterns:
    matches = re.finditer(pattern, text, re.IGNORECASE)
    for match in matches:
        try:
            groups = match.groups()
            if len(groups) >= 3:
                author = groups[0].strip(); year = groups[1].strip(); title = groups[2].strip()
            elif len(groups) == 2:
                author = groups[0].strip(); year = groups[1].strip(); title = ""
            else:
                continue
            if (len(author) > 3 and year.isdigit() and len(year) == 4 and
                1900 < int(year) < 2030 and len(title) > 10 and
                not title.lower() in ['correction', 'pages', 'figure', 'table',
                                      'appendix', 'supplementary']):
                references.append({...})
        except (IndexError, ValueError):
            continue
# dedup on (author.lower(), year), first occurrence wins
```

The regex library boundary is abstracted: a `PyMatch` is the data `re.finditer`
hands to the loop body (captured groups, matched literal, and the
±200-character context computed by `_extract_reference_context`); everything
the loop body does with a match — group-count dispatch, stripping, the
validation predicate, and the (author, year) dedup — is translated from the
source.  Note that the bare "Author (Year)" pattern (pattern 6) is the only
two-group pattern, and a two-group match always gets `title = ""`. -/

/-- Python `str.strip()`: drop leading and trailing whitespace. -/
def pyStrip (s : String) : String :=
  String.mk (((s.toList.dropWhile Char.isWhitespace).reverse.dropWhile
    Char.isWhitespace).reverse)

/-- Python `int(...)` on a digit string: the decimal value. -/
def digitsToNat (s : String) : Nat :=
  s.toList.foldl (fun n c => 10 * n + (c.toNat - '0'.toNat)) 0

/-- Python `str.lower()` on a Lean `String`. -/
def pyLowerS (s : String) : String := String.mk (s.toList.map Char.toLower)

/-- A match object as handed to the extraction loop: `match.groups()`,
`match.group(0)`, and the surrounding-context window. -/
structure PyMatch where
  groups : List String
  matched : String
  context : String
deriving DecidableEq

/-- A validated reference tuple appended to `references`. -/
structure RefTuple where
  author : String
  year : Nat
  title : String
  text : String
  context : String
deriving DecidableEq

/-- The non-bibliographic stoplist used by the validation. -/
def refStoplist : List String :=
  ["correction", "pages", "figure", "table", "appendix", "supplementary"]

/-- The validation predicate of `_extract_references_from_text` applied to a
stripped (author, year, title) triple; `year.isdigit()` is false on the empty
string, and `int(year)` is the decimal value. -/
def validateRef (author year title : String) (m : PyMatch) : Option RefTuple :=
  if 3 < author.length ∧
      year.length ≠ 0 ∧ year.toList.all Char.isDigit = true ∧
      year.length = 4 ∧
      1900 < digitsToNat year ∧ digitsToNat year < 2030 ∧
      10 < title.length ∧
      refStoplist.contains (pyLowerS title) = false then
    some ⟨author, digitsToNat year, title, m.matched, m.context⟩
  else none

/-- The per-match body of the extraction loop: group-count dispatch
(`len(groups) >= 3` → titled tuple, `len(groups) == 2` → bare tuple with
`title = ""`, otherwise skip), then validation. -/
def processOneMatch (m : PyMatch) : Option RefTuple :=
  if 3 ≤ m.groups.length then
    validateRef (pyStrip (m.groups.getD 0 "")) (pyStrip (m.groups.getD 1 ""))
      (pyStrip (m.groups.getD 2 "")) m
  else if m.groups.length = 2 then
    validateRef (pyStrip (m.groups.getD 0 "")) (pyStrip (m.groups.getD 1 "")) "" m
  else none

/-- The final dedup on the case-insensitive (author, year) pair — first
occurrence wins. -/
def dedupRefsAux : List RefTuple → List (String × Nat) → List RefTuple
  | [], _ => []
  | r :: rs, seen =>
    if (pyLowerS r.author, r.year) ∈ seen then dedupRefsAux rs seen
    else r :: dedupRefsAux rs ((pyLowerS r.author, r.year) :: seen)

/-- `_extract_references_from_text`, over the match stream produced by the ten
patterns. -/
def extractReferencesFromMatches (ms : List PyMatch) : List RefTuple :=
  dedupRefsAux (ms.filterMap processOneMatch) []

theorem mem_dedupRefsAux (r : RefTuple) :
    ∀ (l : List RefTuple) (seen : List (String × Nat)),
      r ∈ dedupRefsAux l seen → r ∈ l := by
  intro l
  induction l with
  | nil => intro seen hr; exact absurd hr (by simp [dedupRefsAux])
  | cons x xs ih =>
    intro seen hr
    unfold dedupRefsAux at hr
    split at hr
    · exact List.mem_cons_of_mem x (ih _ hr)
    · rcases List.mem_cons.1 hr with rfl | hr
      · exact List.mem_cons_self _ _
      · exact List.mem_cons_of_mem x (ih _ hr)

/-- Every tuple the parser ever emits has a title longer than 10 characters:
the title-length validation is applied unconditionally, so a two-group (bare
"Author (Year)") match, whose title is always the empty string, can never
produce a tuple. -/
theorem extract_title_long (ms : List PyMatch) (r : RefTuple)
    (hr : r ∈ extractReferencesFromMatches ms) : 10 < r.title.length := by
  have hr2 := mem_dedupRefsAux r _ _ hr
  rw [List.mem_filterMap] at hr2
  obtain ⟨m, _, hm⟩ := hr2
  unfold processOneMatch at hm
  split at hm
  · unfold validateRef at hm
    split at hm
    · rename_i hcond
      cases hm
      exact hcond.2.2.2.2.2.2.1
    · exact absurd hm (by simp)
  · split at hm
    · unfold validateRef at hm
      split at hm
      · rename_i hcond
        cases hm
        exact hcond.2.2.2.2.2.2.1
      · exact absurd hm (by simp)
    · exact absurd hm (by simp)

/-- C6 (code bug): on the text `"Smith (2023)"` — a bare "Author (Year)"
citation with author length > 3 and year strictly between 1900 and 2030 —
only pattern 6 matches, producing the two captured groups `("Smith", "2023")`;
the loop sets `title = ""` for it, and the unconditional `len(title) > 10`
validation then rejects it, so the parser extracts nothing, contradicting the
claim that the title-length check applies only when a title is captured. -/
theorem bareCitation_rejected :
    extractReferencesFromMatches
      [⟨["Smith", "2023"], "Smith (2023)", "Smith (2023)"⟩] = [] := by
  decide

/-! ### Paper resolver (`papers.utils._find_or_create_referenced_paper`,
`_search_external_paper_enhanced`, `_calculate_similarity`)

The paper table is a `List DBPaper`, newest record first (Django's
`Paper.Meta.ordering = ['-uploaded_at']` combined with `.first()` makes every
lookup return the newest matching record), so record creation *prepends*.
`title__iexact` is case-insensitive equality, `__icontains` case-insensitive
substring containment.  Fresh primary keys come from the threaded `nextId`
counter (UUIDs in the source; only freshness matters).  The HTTP layer is an
oracle: a `ExtResponse` holds the CrossRef result items (already projected to
the title / joined-author / year / doi / journal / abstract fields the code
reads out of the JSON, with `""` for a missing field) and the optional parsed
arXiv entry; the best-match selection, the weighted Jaccard similarity with
its 0.6 threshold, and the record creations are translated from the source.
Fields the resolver never reads back (doi, journal, abstract on the created
record) are dropped from `DBPaper`; the generated `content_text` templates are
abridged to their informative head since no modelled operation reads them. -/

/-- A stored `Paper` row (the fields the resolver reads). -/
structure DBPaper where
  id : Nat
  title : String
  author : String
  year : Option Nat
  processed : Bool
  contentText : String
deriving DecidableEq

/-- A CrossRef result item as projected by the code from the JSON. -/
structure ExtItem where
  title : String
  author : String
  year : Option Nat
  doi : String
  journal : String
  abstract : String
deriving DecidableEq

/-- A parsed arXiv entry (title, first author name, summary). -/
structure ArxivData where
  title : String
  author : String
  summary : String
deriving DecidableEq

/-- What the two external services would answer for one reference. -/
structure ExtResponse where
  crossref : List ExtItem
  arxiv : Option ArxivData
deriving DecidableEq

/-- Python `s[:n]` on a string. -/
def pyTakeS (s : String) (n : Nat) : String := String.mk (s.toList.take n)

/-- Django `field__icontains=needle`: case-insensitive substring test. -/
def icontains (hay needle : String) : Bool :=
  pyIn (lowerL needle.toList) (lowerL hay.toList)

/-- Django `field__iexact=other`: case-insensitive equality. -/
def iexact (a b : String) : Bool := lowerL a.toList == lowerL b.toList

/-- `set(s.lower().split())`, as a duplicate-free token list. -/
def pyTokens (s : String) : List String :=
  ((pySplitWs (lowerL s.toList)).map String.mk).dedup

/-- `papers.utils._calculate_similarity`: word-set Jaccard similarity of the
lowercased whitespace tokens. -/
def calcSimilarity (s1 s2 : String) : ℚ :=
  if s1 = "" || s2 = "" then 0
  else
    let set1 := pyTokens s1
    let set2 := pyTokens s2
    if set1 = [] || set2 = [] then 0
    else
      let inter := (set1.filter fun t => set2.contains t).length
      let union := (set1 ++ set2.filter fun t => !set1.contains t).length
      if union = 0 then 0 else (inter : ℚ) / (union : ℚ)

/-- The best-match loop of `_search_external_paper_enhanced` over the CrossRef
items: weighted score `title_sim * 0.7 + author_sim * 0.3`, accepted only when
it beats both the running best and the 0.6 threshold. -/
def crossrefBest (ref : RefTuple) (items : List ExtItem) : Option ExtItem :=
  (items.foldl (fun (acc : ℚ × Option ExtItem) item =>
    let score := calcSimilarity ref.title item.title * 0.7 +
      calcSimilarity ref.author item.author * 0.3
    if acc.1 < score ∧ (0.6 : ℚ) < score then (score, some item) else acc)
    (0, none)).2

/-- `_search_external_paper_enhanced`: CrossRef best match first (with the
source's per-field fallbacks to the parsed reference data), then the arXiv
entry; each hit **creates a new Paper record** (`Paper.objects.create`, not
get_or_create) and returns it.  Returns `none` when both services miss. -/
def searchExternalPaperEnhanced (ref : RefTuple) (resp : ExtResponse)
    (db : List DBPaper) (nextId : Nat) :
    Option (DBPaper × List DBPaper × Nat) :=
  match crossrefBest ref resp.crossref with
  | some item =>
    let title := if item.title = "" then ref.title else item.title
    let author := if item.author = "" then ref.author else item.author
    let year := item.year.getD ref.year
    let p : DBPaper := ⟨nextId, pyTakeS title 500, pyTakeS author 200,
      some year, true,
      "Title: " ++ title ++ "\nAuthor: " ++ author ++ "\nJournal: " ++
        item.journal ++ "\nDOI: " ++ item.doi ++ "\n\nAbstract:\n" ++
        (if item.abstract = "" then "Abstract not available"
          else item.abstract) ++ "\n\nReference Context:\n" ++ ref.context ++
        "\n\nThis paper was found through CrossRef search."⟩
    some (p, p :: db, nextId + 1)
  | none =>
    match resp.arxiv with
    | some a =>
      let p : DBPaper := ⟨nextId, pyTakeS a.title 500, pyTakeS a.author 200,
        some ref.year, true,
        "Title: " ++ a.title ++ "\nAuthor: " ++ a.author ++
          "\nSource: arXiv\n\nAbstract:\n" ++
          (if a.summary = "" then "Abstract not available" else a.summary) ++
          "\n\nReference Context:\n" ++ ref.context ++
          "\n\nThis paper was found through arXiv search."⟩
      some (p, p :: db, nextId + 1)
    | none => none

/-- `_find_or_create_referenced_paper`: the three local matching stages
(exact case-insensitive title; first-100-chars-of-title AND
first-50-chars-of-author containment; author containment AND exact year),
then the external lookup, then placeholder synthesis (`processed = True`,
generated descriptive content). -/
def findOrCreateReferencedPaper (ref : RefTuple) (resp : ExtResponse)
    (db : List DBPaper) (nextId : Nat) : Option DBPaper × List DBPaper × Nat :=
  match db.find? (fun p => iexact p.title ref.title) with
  | some p => (some p, db, nextId)
  | none =>
    match db.find? (fun p => icontains p.title (pyTakeS ref.title 100) &&
        icontains p.author (pyTakeS ref.author 50)) with
    | some p => (some p, db, nextId)
    | none =>
      match db.find? (fun p => icontains p.author (pyTakeS ref.author 50) &&
          p.year == some ref.year) with
      | some p => (some p, db, nextId)
      | none =>
        match searchExternalPaperEnhanced ref resp db nextId with
        | some (p, db2, nid2) => (some p, db2, nid2)
        | none =>
          let p : DBPaper := ⟨nextId, pyTakeS ref.title 500,
            pyTakeS ref.author 200, some ref.year, true,
            "Reference Information:\n" ++ ref.text ++
              "\n\nPaper Details:\n- Title: " ++ ref.title ++
              "\n- Author: " ++ ref.author ++ "\n\nContext:\n" ++ ref.context ++
              "\n\nThis paper was referenced in the academic literature. " ++
              "The full content is not available as the original document " ++
              "was not uploaded to the system."⟩
          (some p, p :: db, nextId + 1)

/-- C7: when a paper already exists whose title equals the parsed reference's
title case-insensitively, the resolver returns that existing paper (the first
such under the table ordering) and creates no new Paper record: the paper
table and the id counter are unchanged. -/
theorem findOrCreate_existing_title (ref : RefTuple) (resp : ExtResponse)
    (db : List DBPaper) (nextId : Nat)
    (hex : ∃ q ∈ db, iexact q.title ref.title = true) :
    ∃ p, p ∈ db ∧ iexact p.title ref.title = true ∧
      findOrCreateReferencedPaper ref resp db nextId = (some p, db, nextId) := by
  have hsome : (db.find? (fun p => iexact p.title ref.title)).isSome := by
    rw [List.find?_isSome]
    obtain ⟨q, hq, hpred⟩ := hex
    exact ⟨q, hq, hpred⟩
  obtain ⟨p, hfind⟩ := Option.isSome_iff_exists.1 hsome
  have hpred := List.find?_some hfind
  refine ⟨p, List.mem_of_find?_eq_some hfind, hpred, ?_⟩
  unfold findOrCreateReferencedPaper
  rw [hfind]

/-- Witness for `findOrCreate_existing_title` on a concrete table. -/
theorem findOrCreate_existing_title_witness :
    (∃ q ∈ [(⟨1, "A Study Of Chunking", "Lee", some 2001, true, ""⟩ : DBPaper)],
      iexact q.title "a study of chunking" = true) ∧
    ∃ p, p ∈ [(⟨1, "A Study Of Chunking", "Lee", some 2001, true, ""⟩ : DBPaper)] ∧
      iexact p.title "a study of chunking" = true ∧
      findOrCreateReferencedPaper
          ⟨"Lee", 2001, "a study of chunking", "", ""⟩ ⟨[], none⟩
          [⟨1, "A Study Of Chunking", "Lee", some 2001, true, ""⟩] 2 =
        (some p, [⟨1, "A Study Of Chunking", "Lee", some 2001, true, ""⟩], 2) :=
  ⟨by decide, findOrCreate_existing_title
    ⟨"Lee", 2001, "a study of chunking", "", ""⟩ ⟨[], none⟩
    [⟨1, "A Study Of Chunking", "Lee", some 2001, true, ""⟩] 2 (by decide)⟩

/-! ### Full extraction run (`extract_references_from_paper`, resolution plus
edge creation), used to exhibit the non-idempotent external-lookup path. -/

/-- The database state threaded through one extraction run. -/
structure ExtractState where
  papers : List DBPaper
  edges : List (Nat × Nat)
  nextId : Nat
deriving DecidableEq

/-- One run of the reference loop of `extract_references_from_paper`: for each
parsed reference, resolve it (`_find_or_create_referenced_paper`) against the
current paper table, then `get_or_create` the (source, target) edge, counting
created edges.  The oracle gives each reference's external-service response
(deterministic: the services answer the same on both runs). -/
def extractReferencesOnce (src : Nat) (refs : List RefTuple)
    (oracle : RefTuple → ExtResponse) (st : ExtractState) :
    Nat × ExtractState :=
  refs.foldl (fun acc ref =>
    match findOrCreateReferencedPaper ref (oracle ref) acc.2.papers acc.2.nextId with
    | (none, papers2, nid2) => (acc.1, ⟨papers2, acc.2.edges, nid2⟩)
    | (some tp, papers2, nid2) =>
      let r := getOrCreateEdge src tp.id acc.2.edges
      (if r.1 then acc.1 + 1 else acc.1, ⟨papers2, r.2, nid2⟩))
    (0, st)

/-- The reference of the counterexample run: parsed tuple
(author "Smith", year 2023, title "cat dog fox."). -/
def exRef : RefTuple := ⟨"Smith", 2023, "cat dog fox.", "Smith (2023) cat dog fox.", ""⟩

/-- The CrossRef answer for `exRef`: same title without the trailing period
(Jaccard title similarity 1/2), same author (similarity 1), published-print
year 2024 — weighted score 1/2 · 0.7 + 1 · 0.3 = 0.65 > 0.6, so it is
accepted and a record is created from it. -/
def exItem : ExtItem := ⟨"cat dog fox", "smith", some 2024, "", "", ""⟩

def exOracle : RefTuple → ExtResponse := fun _ => ⟨[exItem], none⟩

/-- Initial table: just the source paper (id 100); no edges. -/
def exState : ExtractState :=
  ⟨[⟨100, "a survey of animal studies", "Jones", some 2020, true, ""⟩], [], 0⟩

/-- C2, counterexample to the claim as stated: with the CrossRef oracle above,
the first run fully succeeds (creates the external paper, id 0, and the edge
(100, 0)), but the second run resolves the same reference again through the
external path — the stored CrossRef title lacks the trailing period, so the
iexact and icontains stages miss it, and its year 2024 differs from the cited
2023, so the author+year stage misses too — creating a duplicate paper (id 1)
and a second edge (100, 1): the second run's created-edge count is 1, not 0,
and the edge set differs. -/
theorem extract_second_run_not_idempotent :
    (extractReferencesOnce 100 [exRef] exOracle exState).1 = 1 ∧
    (extractReferencesOnce 100 [exRef] exOracle
        (extractReferencesOnce 100 [exRef] exOracle exState).2).1 = 1 ∧
    (extractReferencesOnce 100 [exRef] exOracle
        (extractReferencesOnce 100 [exRef] exOracle exState).2).2.edges ≠
      (extractReferencesOnce 100 [exRef] exOracle exState).2.edges := by
  with_unfolding_all decide

/-! ### Query wrapper (`RAGEngine.query`) and single-paper source descriptors
(`RAGEngine._query_single_paper`)

```python
def query(self, question, paper=None, cross_paper=True):
    try:
        if paper:
            return self._query_single_paper(question, paper)
        elif cross_paper:
            return self._query_cross_paper(question)
        else:
            return "Please specify a paper or enable cross-paper search.", [], []
    except Exception as e:
        print(f"Error in RAG query: {e}")
        return f"I encountered an error while processing your question: {str(e)}", [], []
```

Exceptions raised by the dispatched handler are modelled by `Except String`:
`.error e` is a raised exception whose `str(e)` is `e`, and the `try/except`
wrapper is the `match` that turns it into the explanatory answer triple. -/

/-- Paper metadata carried into descriptors. -/
structure PaperInfo where
  title : String
  author : String
deriving DecidableEq

/-- A chunk dict of the answer triple (`_query_single_paper`'s
`formatted_chunks` entries). -/
structure ChunkDesc where
  id : Nat
  content : List Char
  chunkIndex : Nat
  paperTitle : String
  paperAuthor : String
deriving DecidableEq

/-- A source descriptor of the answer triple. -/
structure SourceDesc where
  chunkId : Nat
  contentPreview : List Char
  similarityScore : ℚ
  paperTitle : String
  paperAuthor : String
deriving DecidableEq

/-- The `(answer_text, chunks, sources)` triple every query returns. -/
def QueryResult : Type := String × List ChunkDesc × List SourceDesc

/-- The dispatch inside the `try`: single-paper handler when a paper is given,
else the cross-paper handler when enabled, else the fixed message triple. -/
def queryInner (question : String) (paper : Option PaperInfo)
    (crossPaper : Bool)
    (runSingle : String → PaperInfo → Except String QueryResult)
    (runCross : String → Except String QueryResult) :
    Except String QueryResult :=
  match paper with
  | some p => runSingle question p
  | none =>
    if crossPaper then runCross question
    else .ok ("Please specify a paper or enable cross-paper search.", [], [])

/-- `RAGEngine.query`: the dispatch wrapped in the catch-all handler. -/
def query (question : String) (paper : Option PaperInfo) (crossPaper : Bool)
    (runSingle : String → PaperInfo → Except String QueryResult)
    (runCross : String → Except String QueryResult) : QueryResult :=
  match queryInner question paper crossPaper runSingle runCross with
  | .ok r => r
  | .error e =>
    ("I encountered an error while processing your question: " ++ e, [], [])

/-- C9: for every question, paper argument and handler behaviour, `query`
returns an (answer_text, chunks, sources) triple and never propagates an
exception: either the dispatched handler succeeded and its triple is returned
unchanged, or it raised and the result is the explanatory natural-language
message with empty chunk and source lists. -/
theorem query_never_raises (question : String) (paper : Option PaperInfo)
    (crossPaper : Bool)
    (runSingle : String → PaperInfo → Except String QueryResult)
    (runCross : String → Except String QueryResult) :
    (∃ r, queryInner question paper crossPaper runSingle runCross = .ok r ∧
      query question paper crossPaper runSingle runCross = r) ∨
    (∃ e, queryInner question paper crossPaper runSingle runCross = .error e ∧
      query question paper crossPaper runSingle runCross =
        ("I encountered an error while processing your question: " ++ e,
          [], [])) := by
  unfold query
  cases hq : queryInner question paper crossPaper runSingle runCross with
  | ok r => exact Or.inl ⟨r, rfl, rfl⟩
  | error e => exact Or.inr ⟨e, rfl, rfl⟩

/-! ### Single-paper source descriptors

```python
sources = [{
    'chunk_id': str(chunk.id),
    'content_preview': chunk.content[:200] + '...',
    'similarity_score': 0.8,  # Placeholder score
    'paper_title': paper.title,
    'paper_author': paper.author
} for chunk in relevant_chunks]
```
-/

/-- The source-descriptor list `_query_single_paper` builds from the ranked
relevant chunks. -/
def querySinglePaperSources (question : List Char) (paper : PaperInfo)
    (chunks : List PChunk) : List SourceDesc :=
  (getRelevantChunksSimple question chunks).map fun c =>
    ⟨c.id, c.content.take 200 ++ strL "...", (0.8 : ℚ), paper.title,
      paper.author⟩

/-- C10: every source descriptor of a single-paper query carries the constant
similarity score 0.8, whatever the question and the chunk contents — the
integer relevance scores used for ranking are never reported. -/
theorem singlePaper_similarity_constant (question : List Char)
    (paper : PaperInfo) (chunks : List PChunk) (s : SourceDesc)
    (hs : s ∈ querySinglePaperSources question paper chunks) :
    s.similarityScore = 0.8 := by
  unfold querySinglePaperSources at hs
  rw [List.mem_map] at hs
  obtain ⟨c, _, rfl⟩ := hs
  rfl

/-- Witness for `singlePaper_similarity_constant` on a concrete query whose
source list is non-empty. -/
theorem singlePaper_similarity_constant_witness :
    (⟨7, (strL "we study things").take 200 ++ strL "...", (0.8 : ℚ),
        "T", "A"⟩ : SourceDesc) ∈
      querySinglePaperSources (strL "study") ⟨"T", "A"⟩
        [⟨7, 0, strL "we study things"⟩] ∧
    (⟨7, (strL "we study things").take 200 ++ strL "...", (0.8 : ℚ),
        "T", "A"⟩ : SourceDesc).similarityScore = 0.8 :=
  ⟨by with_unfolding_all decide,
    singlePaper_similarity_constant (strL "study") ⟨"T", "A"⟩
      [⟨7, 0, strL "we study things"⟩] _ (by with_unfolding_all decide)⟩
